import Mathlib

/-!
Shallow embedding of the Uranus DEX client library
(src/onchain-api/index.js and src/onchain-api/schema.js):

* the fee and position-size arithmetic of `calculateFees` and
  `createUranusPositionTransaction`;
* the parameter validation and direction encoding of the open- and
  close-position builders;
* the fixed-width symbol codec (`stringToFixedArray` on the way out, the
  TextDecoder/NUL-stripping path of `deserializePositionAccount` on the
  way in);
* the borsh fixed-layout decoder for the position account record;
* the query-layer account classification and single-filter selection of
  `getOpenPositions` / `getAllMarkets`;
* the signature-pagination loop of `getAllSignaturesForMarket`;
* the program-derived-address seed construction shared by the open and
  close builders.

Modelling conventions.  JS `BN` big-integer arithmetic on non-negative
values is modelled with `Nat` (BN division truncates toward zero, which is
floor division for non-negative operands); the position size, which BN can
drive negative, uses `Int`.  Byte strings are `List Nat` with entries
below 256.  JS functions that `throw` are modelled with `Option` or
`Except`.  Public keys are carried as their raw 32-byte lists; base58
display conversion, and the final `Number(...)/LAMPORTS_PER_SOL` floating
point display conversions, are outside the integer model, so all amounts
stay in lamports.
-/

namespace UranusDex

/-- Lamports per SOL, from the host ledger library. -/
def LAMPORTS_PER_SOL : Nat := 1000000000

/-! ## Fee and sizing arithmetic (index.js lines 91-103, 116-118) -/

/-- The base fee computed inside `calculateFees` (index.js line 95):
2% of the paid principal, `basePaidAmount * 200 / 10000` with BN floor
division. -/
def baseFee (lamports : Nat) : Nat :=
  lamports * 200 / 10000

/-- The leverage fee computed inside `calculateFees` (index.js line 96):
0.1% of the principal per leverage level,
`basePaidAmount * 10 * leverage / 10000` with BN floor division. -/
def leverageFee (lamports leverage : Nat) : Nat :=
  lamports * 10 * leverage / 10000

/-- Result record of `calculateFees`: the principal in lamports, the summed
percentage fee, and the rent-exemption fee for the position account. -/
structure Fees where
  basePaidAmount : Nat
  percentageFee : Nat
  accountFee : Nat
  deriving DecidableEq, Repr

/-- Shallow embedding of `calculateFees` (index.js lines 91-103).  The JS
function receives the principal in SOL and converts to lamports; the model
takes the lamport value directly.  The rent-exemption balance
(`getMinimumBalanceForRentExemption(PositionAccountData.size)`) is read from
the transport, so it enters the model as the parameter `accountRent`. -/
def calculateFees (lamports leverage accountRent : Nat) : Fees :=
  { basePaidAmount := lamports
    percentageFee := baseFee lamports + leverageFee lamports leverage
    accountFee := accountRent }

/-- Total cost charged to the caller, `createUranusPositionTransaction`
line 117: principal plus percentage fee plus account rent. -/
def paidAmount (f : Fees) : Nat :=
  f.basePaidAmount + f.percentageFee + f.accountFee

/-- Position size, `createUranusPositionTransaction` line 118:
`basePaidAmount.sub(percentageFee).sub(accountFee).mul(leverage)`.  BN
subtraction can go negative, hence `Int`. -/
def positionSize (f : Fees) (leverage : Nat) : Int :=
  ((f.basePaidAmount : Int) - (f.percentageFee : Int) - (f.accountFee : Int)) * (leverage : Nat)

/-! ## UTF-8 byte codec

JS TextEncoder / TextDecoder, the external primitives used by
`stringToFixedArray` (encoding) and `deserializePositionAccount`
(decoding).  The encoder is standard UTF-8.  The decoder is lossy (JS
TextDecoder without the fatal flag never throws): valid sequences decode
to their code point, anything else produces the replacement character
U+FFFD.  The exact resynchronisation of TextDecoder after an invalid
sequence is simplified to consuming the offending lead byte (or, at the
end of the input, the truncated tail). -/

/-- UTF-8 encoding of one character (TextEncoder). -/
def utf8EncodeChar (c : Char) : List Nat :=
  let v := c.toNat
  if v < 128 then [v]
  else if v < 2048 then [192 + v / 64, 128 + v % 64]
  else if v < 65536 then [224 + v / 4096, 128 + v / 64 % 64, 128 + v % 64]
  else [240 + v / 262144, 128 + v / 4096 % 64, 128 + v / 64 % 64, 128 + v % 64]

/-- UTF-8 bytes of a string (TextEncoder on the whole string). -/
def strBytes (s : String) : List Nat :=
  (s.data.map utf8EncodeChar).flatten

/-- The replacement character U+FFFD emitted by a lossy decoder. -/
def replChar : Char := Char.ofNat 65533

/-- One step of lossy UTF-8 decoding (TextDecoder without the fatal flag):
given the lead byte and the bytes after it, the decoded character — the
replacement character for an invalid sequence — and how many continuation
bytes were consumed.  Overlong encodings, surrogate encodings and
out-of-range lead bytes produce the replacement character consuming only
the lead byte; a sequence truncated by the end of the input produces one
replacement character consuming the remaining bytes. -/
def utf8Step (b0 : Nat) (r : List Nat) : Char × Nat :=
  if b0 < 128 then (Char.ofNat b0, 0)
  else if b0 < 194 then (replChar, 0)
  else if b0 < 224 then
    match r with
    | b1 :: _ =>
      if 128 ≤ b1 ∧ b1 < 192 then (Char.ofNat ((b0 - 192) * 64 + (b1 - 128)), 1)
      else (replChar, 0)
    | [] => (replChar, 0)
  else if b0 < 240 then
    match r with
    | b1 :: b2 :: _ =>
      if ((if b0 = 224 then 160 else 128) ≤ b1 ∧ b1 < (if b0 = 237 then 160 else 192))
          ∧ (128 ≤ b2 ∧ b2 < 192) then
        (Char.ofNat ((b0 - 224) * 4096 + (b1 - 128) * 64 + (b2 - 128)), 2)
      else (replChar, 0)
    | _ => (replChar, r.length)
  else if b0 < 245 then
    match r with
    | b1 :: b2 :: b3 :: _ =>
      if ((if b0 = 240 then 144 else 128) ≤ b1 ∧ b1 < (if b0 = 244 then 144 else 192))
          ∧ (128 ≤ b2 ∧ b2 < 192) ∧ (128 ≤ b3 ∧ b3 < 192) then
        (Char.ofNat ((b0 - 240) * 262144 + (b1 - 128) * 4096 + (b2 - 128) * 64 + (b3 - 128)), 3)
      else (replChar, 0)
    | _ => (replChar, r.length)
  else (replChar, 0)

/-- The decoding loop behind `utf8Decode`, driven by a fuel counter so that
the recursion is structural; one unit of fuel is spent per decoded
character, so fuel equal to the byte count always suffices. -/
def utf8DecodeLoop : Nat → List Nat → List Char
  | _, [] => []
  | 0, _ :: _ => []
  | fuel + 1, b0 :: r =>
    let s := utf8Step b0 r
    s.1 :: utf8DecodeLoop fuel (r.drop s.2)

/-- Lossy UTF-8 decoding of a byte list (TextDecoder without the fatal
flag): valid sequences decode to their code point, everything else to the
replacement character. -/
def utf8Decode (l : List Nat) : List Char :=
  utf8DecodeLoop l.length l

/-! ## Fixed-width symbol codec (index.js lines 26-39 and line 228) -/

/-- Shallow embedding of `stringToFixedArray` (index.js lines 26-39): a
`width`-byte array of zeros whose first `min bytes.length (width - 1)`
entries are the UTF-8 bytes of the string (the call sites always pass
width 32). -/
def stringToFixedArray (s : String) (width : Nat) : List Nat :=
  let bytes := strBytes s
  let copyLength := min bytes.length (width - 1)
  bytes.take copyLength ++ List.replicate (width - copyLength) 0

/-- The symbol field conversion of `deserializePositionAccount`
(index.js line 228): lossy TextDecoder decoding followed by removal of
every NUL character, the JS `replace` with a global NUL pattern. -/
def decodeSymbol (bytes : List Nat) : String :=
  String.mk ((utf8Decode bytes).filter (fun c => c ≠ Char.ofNat 0))

/-- One step of strict UTF-8 decoding: like `utf8Step` but failing
instead of producing a replacement character.  Used only by
`specDecodeSymbol` below. -/
def utf8StepStrict (b0 : Nat) (r : List Nat) : Option (Char × Nat) :=
  if b0 < 128 then some (Char.ofNat b0, 0)
  else if b0 < 194 then none
  else if b0 < 224 then
    match r with
    | b1 :: _ =>
      if 128 ≤ b1 ∧ b1 < 192 then some (Char.ofNat ((b0 - 192) * 64 + (b1 - 128)), 1)
      else none
    | [] => none
  else if b0 < 240 then
    match r with
    | b1 :: b2 :: _ =>
      if ((if b0 = 224 then 160 else 128) ≤ b1 ∧ b1 < (if b0 = 237 then 160 else 192))
          ∧ (128 ≤ b2 ∧ b2 < 192) then
        some (Char.ofNat ((b0 - 224) * 4096 + (b1 - 128) * 64 + (b2 - 128)), 2)
      else none
    | _ => none
  else if b0 < 245 then
    match r with
    | b1 :: b2 :: b3 :: _ =>
      if ((if b0 = 240 then 144 else 128) ≤ b1 ∧ b1 < (if b0 = 244 then 144 else 192))
          ∧ (128 ≤ b2 ∧ b2 < 192) ∧ (128 ≤ b3 ∧ b3 < 192) then
        some (Char.ofNat ((b0 - 240) * 262144 + (b1 - 128) * 4096
          + (b2 - 128) * 64 + (b3 - 128)), 3)
      else none
    | _ => none
  else none

/-- The loop behind `utf8DecodeStrict`, fuel-driven like
`utf8DecodeLoop`. -/
def utf8DecodeStrictLoop : Nat → List Nat → Option (List Char)
  | _, [] => some []
  | 0, _ :: _ => none
  | fuel + 1, b0 :: r =>
    match utf8StepStrict b0 r with
    | none => none
    | some s => (utf8DecodeStrictLoop fuel (r.drop s.2)).map (s.1 :: ·)

/-- Strict UTF-8 decoding: like `utf8Decode` but failing on any invalid
sequence. -/
def utf8DecodeStrict (l : List Nat) : Option (List Char) :=
  utf8DecodeStrictLoop l.length l

/-- Modelled from the spec: the symbol decoder as the specification words
it — "the decoder trims trailing zero bytes and interprets the remainder
as UTF-8, failing with a DecodeError if the bytes are not valid UTF-8 text
after trimming".  A failure is `none`.  This definition exists only to be
compared against `decodeSymbol`, the behaviour of the code. -/
def specDecodeSymbol (bytes : List Nat) : Option String :=
  let trimmed := (bytes.reverse.dropWhile (· = 0)).reverse
  (utf8DecodeStrict trimmed).map String.mk

/-! ## Borsh fixed-layout position-account decoder
(schema.js lines 18-36, index.js lines 222-240)

The borsh reader consumes the buffer field by field in schema order,
failing when a read runs past the end of the buffer, and the top-level
deserialize fails when bytes remain after the last field.  Little-endian
multi-byte integers. -/

/-- Little-endian interpretation of a byte list as an unsigned integer. -/
def leDecode (bytes : List Nat) : Nat :=
  bytes.foldr (fun b acc => b + 256 * acc) 0

/-- Borsh fixed-size byte-array read: the first `n` bytes and the rest,
failing when fewer than `n` bytes remain. -/
def readBytes (n : Nat) (d : List Nat) : Option (List Nat × List Nat) :=
  if n ≤ d.length then some (d.take n, d.drop n) else none

/-- Borsh u64 read: 8 little-endian bytes. -/
def readU64 (d : List Nat) : Option (Nat × List Nat) :=
  (readBytes 8 d).map (fun p => (leDecode p.1, p.2))

/-- Borsh u8 read: one byte. -/
def readU8 (d : List Nat) : Option (Nat × List Nat) :=
  (readBytes 1 d).map (fun p => (leDecode p.1, p.2))

/-- Two's-complement reinterpretation of an unsigned 64-bit value. -/
def asI64 (v : Nat) : Int :=
  if v < 2 ^ 63 then (v : Int) else (v : Int) - 2 ^ 64

/-- Two's-complement reinterpretation of an unsigned 8-bit value. -/
def asI8 (v : Nat) : Int :=
  if v < 128 then (v : Int) else (v : Int) - 256

/-- Borsh i64 read: 8 little-endian bytes, two's complement. -/
def readI64 (d : List Nat) : Option (Int × List Nat) :=
  (readU64 d).map (fun p => (asI64 p.1, p.2))

/-- Borsh i8 read: one byte, two's complement. -/
def readI8 (d : List Nat) : Option (Int × List Nat) :=
  (readU8 d).map (fun p => (asI8 p.1, p.2))

/-- The record `deserializePositionAccount` hands back to callers.  Keys
stay as raw 32-byte lists and amounts stay in lamports (the JS base58 and
floating-point display conversions are outside the integer model); the
symbol has been through `decodeSymbol` and the direction byte has been
mapped to its display string, exactly as in index.js lines 225-237. -/
structure PositionAccount where
  owner : List Nat
  market_mint : List Nat
  market_symbol : String
  entry_price : Nat
  liquidation_price : Nat
  paid_amount : Nat
  position_size : Nat
  leverage : Nat
  closed : Nat
  position_nonce : Nat
  pnl : Int
  direction : String
  deriving DecidableEq, Repr

/-- Shallow embedding of `deserializePositionAccount` (index.js lines
222-240): borsh deserialization with the `PositionAccountData` schema
(schema.js lines 18-36) followed by the field conversions of lines
225-237.  `none` models the JS throw on a buffer that is too short or has
trailing bytes. -/
def deserializePositionAccount (d : List Nat) : Option PositionAccount := do
  let (owner, d) ← readBytes 32 d
  let (mint, d) ← readBytes 32 d
  let (sym, d) ← readBytes 32 d
  let (entry, d) ← readU64 d
  let (liq, d) ← readU64 d
  let (paid, d) ← readU64 d
  let (size, d) ← readU64 d
  let (lev, d) ← readU8 d
  let (closedFlag, d) ← readU8 d
  let (nonce, d) ← readU64 d
  let (pnl, d) ← readI64 d
  let (dir, d) ← readI8 d
  if d = [] then
    some { owner := owner
           market_mint := mint
           market_symbol := decodeSymbol sym
           entry_price := entry
           liquidation_price := liq
           paid_amount := paid
           position_size := size
           leverage := lev
           closed := closedFlag
           position_nonce := nonce
           pnl := pnl
           direction := if dir = 1 then "LONG" else "SHORT" }
  else none

/-! ## Query layer (index.js lines 242-286) -/

/-- A raw program-owned account as the transport returns it: an abstract
account identity plus the raw data bytes. -/
structure RawAccount where
  pubkey : Nat
  data : List Nat
  deriving DecidableEq, Repr

/-- JS `toLowerCase`, modelled character by character (ASCII case folding,
which is all the builder's "long" comparison and the ticker filter
need). -/
def toLowerStr (s : String) : String :=
  String.mk (s.data.map Char.toLower)

/-- JS truthiness of an optional string parameter: present and non-empty
(the empty string is falsy). -/
def truthyStr (t : Option String) : Bool :=
  match t with
  | some s => s ≠ ""
  | none => false

/-- The ticker filter predicate of `getOpenPositions` line 260:
case-insensitive substring containment of the ticker in the symbol. -/
def matchesTicker (p : PositionAccount) (ticker : String) : Bool :=
  decide ((toLowerStr ticker).data <:+: (toLowerStr p.market_symbol).data)

/-- The filter chain of `getOpenPositions` (index.js lines 253-261): three
mutually exclusive `if`/`else if` branches, each requiring its own filter
to be truthy and both others falsy; when no branch matches the list passes
through unchanged.  Key comparisons via base58 strings are modelled as
equality of the raw byte lists. -/
def applyPositionFilters (owner marketMint : Option (List Nat)) (ticker : Option String)
    (ps : List PositionAccount) : List PositionAccount :=
  if owner.isSome ∧ ¬marketMint.isSome ∧ ¬truthyStr ticker then
    ps.filter (fun p => p.owner = owner.getD [])
  else if ¬owner.isSome ∧ marketMint.isSome ∧ ¬truthyStr ticker then
    ps.filter (fun p => p.market_mint = marketMint.getD [])
  else if ¬owner.isSome ∧ ¬marketMint.isSome ∧ truthyStr ticker then
    ps.filter (fun p => matchesTicker p (ticker.getD ""))
  else ps

/-- Left-to-right decoding of a list of raw accounts, propagating the
first decode failure: the JS `map` over `deserializePositionAccount`,
whose throw aborts the whole query. -/
def decodeAll : List RawAccount → Option (List PositionAccount)
  | [] => some []
  | a :: r =>
    match deserializePositionAccount a.data, decodeAll r with
    | some p, some ps => some (p :: ps)
    | _, _ => none

/-- Shallow embedding of `getOpenPositions` (index.js lines 242-263): keep
every account whose data length is non-zero, decode each one as a position
account, then run the filter chain.  `none` models the JS throw when any
kept account fails to decode. -/
def getOpenPositions (accounts : List RawAccount) (owner marketMint : Option (List Nat))
    (ticker : Option String) : Option (List PositionAccount) :=
  let validAccounts := accounts.filter (fun a => a.data.length ≠ 0)
  (decodeAll validAccounts).map (applyPositionFilters owner marketMint ticker)

/-- Shallow embedding of `getAllMarkets` (index.js lines 265-286): keep
every account whose data length is zero and pair it with its lamport
balance; `lamports` stands for the per-account balance lookup issued to
the transport (the display division by `LAMPORTS_PER_SOL` is omitted, so
liquidity stays in lamports). -/
def getAllMarkets (accounts : List RawAccount) (lamports : Nat → Nat) : List (Nat × Nat) :=
  (accounts.filter (fun a => a.data.length = 0)).map (fun a => (a.pubkey, lamports a.pubkey))

/-! ## Activity-aggregator pagination (index.js lines 288-331) -/

/-- One signature record as returned by the transport's
signatures-for-address call. -/
structure SigInfo where
  sigId : Nat
  blockTime : Int
  deriving DecidableEq, Repr

/-- The inner loop of `getAllSignaturesForMarket` (lines 314-321): push
entries while their block time is at or after the cutoff, break at the
first entry strictly before it. -/
def pageKeep (cutoff : Int) (page : List SigInfo) : List SigInfo :=
  page.takeWhile (fun s => cutoff ≤ s.blockTime)

/-- Shallow embedding of the pagination loop of
`getAllSignaturesForMarket` (index.js lines 302-328).  The transport is
modelled as the sequence of pages it would serve for successive `before`
cursors; an exhausted sequence serves the empty page.  The result is the
number of page fetches issued together with the collected entries; the
loop stops when a page contained an entry before the cutoff
(`reachedCutoff`) or was shorter than the 100-entry limit. -/
def getAllSignaturesForMarket (cutoff : Int) : List (List SigInfo) → Nat × List SigInfo
  | [] => (1, [])
  | page :: rest =>
    let kept := pageKeep cutoff page
    if kept.length < page.length ∨ page.length < 100 then (1, kept)
    else
      let next := getAllSignaturesForMarket cutoff rest
      (next.1 + 1, kept ++ next.2)

/-! ## Program-derived-address seeds (index.js lines 120-128 and 181-192) -/

/-- BN `toArray("le", 8)`: the nonce as 8 little-endian bytes, failing
(as BN does) when the value needs more than 8 bytes. -/
def leBytes8 (n : Nat) : Option (List Nat) :=
  if n < 2 ^ 64 then
    some [n % 256, n / 2 ^ 8 % 256, n / 2 ^ 16 % 256, n / 2 ^ 24 % 256,
          n / 2 ^ 32 % 256, n / 2 ^ 40 % 256, n / 2 ^ 48 % 256, n / 2 ^ 56 % 256]
  else none

/-- The seed sequence `createUranusPositionTransaction` passes to
`findProgramAddressSync` (index.js lines 121-128): the string tag, the raw
owner bytes, the 8-byte little-endian nonce. -/
def positionSeedsOpen (owner : List Nat) (nonce : Nat) : Option (List (List Nat)) :=
  (leBytes8 nonce).map (fun nonceBytes => [strBytes "uranus_position", owner, nonceBytes])

/-- The seed sequence `closeUranusPosition` passes to
`findProgramAddressSync` when no position address is supplied (index.js
lines 183-192): the string tag, the raw owner bytes, the 8-byte
little-endian nonce. -/
def positionSeedsClose (owner : List Nat) (nonce : Nat) : Option (List (List Nat)) :=
  (leBytes8 nonce).map (fun nonceBytes => [strBytes "uranus_position", owner, nonceBytes])

/-! ## Transaction builders (index.js lines 105-174 and 176-220) -/

/-- The errors the embedded builders can raise.  There is no
InvalidDirection and no InvalidLeverage constructor because the source has
no such checks: the only validations are the combined falsy-parameter
check and the two metadata checks. -/
inductive BuildError where
  | missingParameters
  | metadataNotFound
  | metadataSymbolMissing
  deriving DecidableEq, Repr

/-- The direction byte of the open-position payload
(index.js line 139). -/
def encodeDirection (direction : String) : Int :=
  if toLowerStr direction = "long" then 1 else -1

/-- Body of the open-position instruction, `InitializePositionData` of
schema.js lines 38-60. -/
structure InitializePositionData where
  market_mint : List Nat
  market_symbol : List Nat
  paid_amount : Nat
  position_size : Int
  leverage : Nat
  position_nonce : Nat
  direction : Int
  deriving DecidableEq, Repr

/-- What `createUranusPositionTransaction` returns, minus the transport
envelope: the serialized payload fields, the discriminator byte written at
offset 0 of the instruction data, the seeds of the derived position
address, and the fee/total figures (kept in lamports). -/
structure OpenPositionResult where
  payload : InitializePositionData
  discriminator : Nat
  seeds : Option (List (List Nat))
  fees : Nat
  totalCost : Nat
  deriving DecidableEq, Repr

/-- Shallow embedding of `createUranusPositionTransaction` (index.js lines
105-174).  External collaborators enter as parameters: `metadataSymbol`
is the symbol of the token-metadata record (`none` when the metadata
account is missing; the falsy check on the symbol makes an empty string
fail too), `accountRent` the rent-exemption balance, `nonce` the
`Date.now()` reading.  Absent caller parameters are `none`; the JS falsy
test on the SOL amount and the leverage is a zero test, on the direction
string an emptiness test. -/
def createUranusPositionTransaction (metadataSymbol : Option String) (accountRent nonce : Nat)
    (owner mint : Option (List Nat)) (lamports leverage : Nat) (direction : String) :
    Except BuildError OpenPositionResult :=
  if owner.isNone ∨ mint.isNone ∨ lamports = 0 ∨ leverage = 0 ∨ direction = "" then
    .error .missingParameters
  else
    match metadataSymbol with
    | none => .error .metadataNotFound
    | some sym =>
      if sym = "" then .error .metadataSymbolMissing
      else
        let f := calculateFees lamports leverage accountRent
        .ok { payload := { market_mint := mint.getD []
                           market_symbol := stringToFixedArray sym 32
                           paid_amount := paidAmount f
                           position_size := positionSize f leverage
                           leverage := leverage
                           position_nonce := nonce
                           direction := encodeDirection direction }
              discriminator := 0
              seeds := positionSeedsOpen (owner.getD []) nonce
              fees := f.percentageFee + f.accountFee
              totalCost := paidAmount f }

/-- Body of the close-position instruction, `ClosePositionData` of
schema.js lines 62-74. -/
structure ClosePositionData where
  close_position : Bool
  position_nonce : Nat
  deriving DecidableEq, Repr

/-- What `closeUranusPosition` returns, minus the transport envelope: the
payload, the discriminator byte, the caller-supplied position address when
there was one, and otherwise the seeds from which the address is derived. -/
structure CloseResult where
  payload : ClosePositionData
  discriminator : Nat
  pda : Option (List Nat)
  derivedSeeds : Option (List (List Nat))
  deriving DecidableEq, Repr

/-- Shallow embedding of `closeUranusPosition` (index.js lines 176-220).
The falsy required-parameters check of lines 177-179 covers the
connection, the nonce (a number, falsy exactly at 0) and the owner; the
position address is optional and derived from the seeds when absent. -/
def closeUranusPosition (connectionPresent : Bool) (positionNonce : Nat)
    (owner : Option (List Nat)) (positionPda : Option (List Nat)) :
    Except BuildError CloseResult :=
  if ¬connectionPresent ∨ positionNonce = 0 ∨ owner.isNone then
    .error .missingParameters
  else
    .ok { payload := { close_position := true, position_nonce := positionNonce }
          discriminator := 2
          pda := positionPda
          derivedSeeds :=
            if positionPda.isSome then none
            else positionSeedsClose (owner.getD []) positionNonce }

/-- The direction byte of a built open-position instruction, when the
build succeeded. -/
def builtDirection (r : Except BuildError OpenPositionResult) : Option Int :=
  match r with
  | .ok v => some v.payload.direction
  | .error _ => none

/-- The leverage byte of a built open-position instruction, when the
build succeeded. -/
def builtLeverage (r : Except BuildError OpenPositionResult) : Option Nat :=
  match r with
  | .ok v => some v.payload.leverage
  | .error _ => none

/-- The percentage-plus-rent fee figure of a built open-position
instruction, when the build succeeded. -/
def builtFees (r : Except BuildError OpenPositionResult) : Option Nat :=
  match r with
  | .ok v => some v.fees
  | .error _ => none

/-- A concrete decoded position record, used as input to the filter-chain
theorems. -/
def samplePosition : PositionAccount :=
  { owner := List.replicate 32 1
    market_mint := List.replicate 32 2
    market_symbol := "SOL"
    entry_price := 0
    liquidation_price := 0
    paid_amount := 1000000000
    position_size := 3000000000
    leverage := 3
    closed := 0
    position_nonce := 1
    pnl := 0
    direction := "LONG" }

/-! ## Helper lemmas -/

theorem readBytes_some (n : Nat) (d : List Nat) (h : n ≤ d.length) :
    readBytes n d = some (d.take n, d.drop n) := by
  simp [readBytes, h]

theorem readBytes_eq_some_iff {n : Nat} {d : List Nat} {p : List Nat × List Nat} :
    readBytes n d = some p ↔ n ≤ d.length ∧ p = (d.take n, d.drop n) := by
  simp only [readBytes]
  split
  · simp_all [eq_comm]
  · simp_all

theorem bind_readBytes_some {β : Type} (n : Nat) (d : List Nat) (h : n ≤ d.length)
    (f : List Nat × List Nat → Option β) :
    (readBytes n d >>= f) = f (d.take n, d.drop n) := by
  rw [readBytes_some n d h]
  rfl

theorem bind_readBytes_none {β : Type} (n : Nat) (d : List Nat) (h : d.length < n)
    (f : List Nat × List Nat → Option β) :
    (readBytes n d >>= f) = none := by
  rw [readBytes, if_neg (by omega)]
  rfl

theorem bind_readU64_some {β : Type} (d : List Nat) (h : 8 ≤ d.length)
    (f : Nat × List Nat → Option β) :
    (readU64 d >>= f) = f (leDecode (d.take 8), d.drop 8) := by
  rw [readU64, readBytes_some 8 d h]
  rfl

theorem bind_readU64_none {β : Type} (d : List Nat) (h : d.length < 8)
    (f : Nat × List Nat → Option β) :
    (readU64 d >>= f) = none := by
  rw [readU64, readBytes, if_neg (by omega)]
  rfl

theorem bind_readU8_some {β : Type} (d : List Nat) (h : 1 ≤ d.length)
    (f : Nat × List Nat → Option β) :
    (readU8 d >>= f) = f (leDecode (d.take 1), d.drop 1) := by
  rw [readU8, readBytes_some 1 d h]
  rfl

theorem bind_readU8_none {β : Type} (d : List Nat) (h : d.length < 1)
    (f : Nat × List Nat → Option β) :
    (readU8 d >>= f) = none := by
  rw [readU8, readBytes, if_neg (by omega)]
  rfl

theorem bind_readI64_some {β : Type} (d : List Nat) (h : 8 ≤ d.length)
    (f : Int × List Nat → Option β) :
    (readI64 d >>= f) = f (asI64 (leDecode (d.take 8)), d.drop 8) := by
  rw [readI64, readU64, readBytes_some 8 d h]
  rfl

theorem bind_readI64_none {β : Type} (d : List Nat) (h : d.length < 8)
    (f : Int × List Nat → Option β) :
    (readI64 d >>= f) = none := by
  rw [readI64, readU64, readBytes, if_neg (by omega)]
  rfl

theorem bind_readI8_some {β : Type} (d : List Nat) (h : 1 ≤ d.length)
    (f : Int × List Nat → Option β) :
    (readI8 d >>= f) = f (asI8 (leDecode (d.take 1)), d.drop 1) := by
  rw [readI8, readU8, readBytes_some 1 d h]
  rfl

theorem bind_readI8_none {β : Type} (d : List Nat) (h : d.length < 1)
    (f : Int × List Nat → Option β) :
    (readI8 d >>= f) = none := by
  rw [readI8, readU8, readBytes, if_neg (by omega)]
  rfl

theorem deserialize_isSome (d : List Nat) (h : d.length = 147) :
    (deserializePositionAccount d).isSome := by
  simp only [deserializePositionAccount]
  rw [bind_readBytes_some 32 d (by omega)]
  dsimp only
  rw [bind_readBytes_some 32 _ (by simp only [List.length_drop, h]; omega)]
  dsimp only
  rw [bind_readBytes_some 32 _ (by simp only [List.length_drop, h]; omega)]
  dsimp only
  rw [bind_readU64_some _ (by simp only [List.length_drop, h]; omega)]
  dsimp only
  rw [bind_readU64_some _ (by simp only [List.length_drop, h]; omega)]
  dsimp only
  rw [bind_readU64_some _ (by simp only [List.length_drop, h]; omega)]
  dsimp only
  rw [bind_readU64_some _ (by simp only [List.length_drop, h]; omega)]
  dsimp only
  rw [bind_readU8_some _ (by simp only [List.length_drop, h]; omega)]
  dsimp only
  rw [bind_readU8_some _ (by simp only [List.length_drop, h]; omega)]
  dsimp only
  rw [bind_readU64_some _ (by simp only [List.length_drop, h]; omega)]
  dsimp only
  rw [bind_readI64_some _ (by simp only [List.length_drop, h]; omega)]
  dsimp only
  rw [bind_readI8_some _ (by simp only [List.length_drop, h]; omega)]
  dsimp only
  rw [if_pos (List.eq_nil_of_length_eq_zero (by simp only [List.length_drop, h]))]
  rfl

set_option maxHeartbeats 1000000 in
theorem deserialize_eq_none (d : List Nat) (h : d.length ≠ 147) :
    deserializePositionAccount d = none := by
  simp only [deserializePositionAccount]
  rcases Nat.lt_or_ge d.length 32 with hc1 | hc1
  · rw [bind_readBytes_none 32 _ (by omega)]
  · rw [bind_readBytes_some 32 _ (by omega)]
    dsimp only
    rcases Nat.lt_or_ge d.length 64 with hc2 | hc2
    · rw [bind_readBytes_none 32 _ (by simp only [List.length_drop]; omega)]
    · rw [bind_readBytes_some 32 _ (by simp only [List.length_drop]; omega)]
      dsimp only
      rcases Nat.lt_or_ge d.length 96 with hc3 | hc3
      · rw [bind_readBytes_none 32 _ (by simp only [List.length_drop]; omega)]
      · rw [bind_readBytes_some 32 _ (by simp only [List.length_drop]; omega)]
        dsimp only
        rcases Nat.lt_or_ge d.length 104 with hc4 | hc4
        · rw [bind_readU64_none _ (by simp only [List.length_drop]; omega)]
        · rw [bind_readU64_some _ (by simp only [List.length_drop]; omega)]
          dsimp only
          rcases Nat.lt_or_ge d.length 112 with hc5 | hc5
          · rw [bind_readU64_none _ (by simp only [List.length_drop]; omega)]
          · rw [bind_readU64_some _ (by simp only [List.length_drop]; omega)]
            dsimp only
            rcases Nat.lt_or_ge d.length 120 with hc6 | hc6
            · rw [bind_readU64_none _ (by simp only [List.length_drop]; omega)]
            · rw [bind_readU64_some _ (by simp only [List.length_drop]; omega)]
              dsimp only
              rcases Nat.lt_or_ge d.length 128 with hc7 | hc7
              · rw [bind_readU64_none _ (by simp only [List.length_drop]; omega)]
              · rw [bind_readU64_some _ (by simp only [List.length_drop]; omega)]
                dsimp only
                rcases Nat.lt_or_ge d.length 129 with hc8 | hc8
                · rw [bind_readU8_none _ (by simp only [List.length_drop]; omega)]
                · rw [bind_readU8_some _ (by simp only [List.length_drop]; omega)]
                  dsimp only
                  rcases Nat.lt_or_ge d.length 130 with hc9 | hc9
                  · rw [bind_readU8_none _ (by simp only [List.length_drop]; omega)]
                  · rw [bind_readU8_some _ (by simp only [List.length_drop]; omega)]
                    dsimp only
                    rcases Nat.lt_or_ge d.length 138 with hc10 | hc10
                    · rw [bind_readU64_none _ (by simp only [List.length_drop]; omega)]
                    · rw [bind_readU64_some _ (by simp only [List.length_drop]; omega)]
                      dsimp only
                      rcases Nat.lt_or_ge d.length 146 with hc11 | hc11
                      · rw [bind_readI64_none _ (by simp only [List.length_drop]; omega)]
                      · rw [bind_readI64_some _ (by simp only [List.length_drop]; omega)]
                        dsimp only
                        rcases Nat.lt_or_ge d.length 147 with hc12 | hc12
                        · rw [bind_readI8_none _ (by simp only [List.length_drop]; omega)]
                        · rw [bind_readI8_some _ (by simp only [List.length_drop]; omega)]
                          dsimp only
                          rw [if_neg]
                          intro heq
                          have hlen := congrArg List.length heq
                          simp only [List.length_drop, List.length_nil] at hlen
                          omega

/-! ## Claim theorems -/

/-- C1: for every principal in lamports and leverage in the range 1-5, the
fee calculation produces the 2% base fee and the 0.1%-per-level leverage
fee with floor division, the position size is
(principal - baseFee - leverageFee - accountRent) * leverage, and at
principal 1,000,000,000 with leverage 3 the fees are 20,000,000 and
3,000,000 and the position size is
(1,000,000,000 - 23,000,000 - accountRent) * 3. -/
theorem calculateFees_spec (p l r : Nat) (_h1 : 1 ≤ l) (_h5 : l ≤ 5) :
    (calculateFees p l r).basePaidAmount = p
    ∧ (calculateFees p l r).percentageFee = p * 200 / 10000 + p * 10 * l / 10000
    ∧ (calculateFees p l r).accountFee = r
    ∧ positionSize (calculateFees p l r) l
        = ((p : Int) - ((p * 200 / 10000 : Nat) : Int) - ((p * 10 * l / 10000 : Nat) : Int)
            - (r : Int)) * (l : Int)
    ∧ baseFee 1000000000 = 20000000
    ∧ leverageFee 1000000000 3 = 3000000
    ∧ positionSize (calculateFees 1000000000 3 r) 3 = ((1000000000 : Int) - 23000000 - r) * 3 := by
  refine ⟨rfl, rfl, rfl, ?_, by norm_num [baseFee], by norm_num [leverageFee], ?_⟩
  · simp only [positionSize, calculateFees, baseFee, leverageFee]
    push_cast
    ring
  · simp only [positionSize, calculateFees, baseFee, leverageFee]
    norm_num

theorem calculateFees_spec_witness :
    positionSize (calculateFees 1000000000 3 2282880) 3
      = ((1000000000 : Int) - 23000000 - 2282880) * 3 :=
  (calculateFees_spec 1000000000 3 2282880 (by decide) (by decide)).2.2.2.2.2.2

/-- C9: position address derivation is deterministic — the open- and
close-position builders construct the identical seed sequence
[string tag, owner bytes, 8-byte little-endian nonce] for the same
(owner, nonce), so every pure derivation function (as the host ledger's
findProgramAddressSync is) maps them to the identical address. -/
theorem derivePositionAddress_deterministic
    (derive : List (List Nat) → List Nat → List Nat)
    (programId owner : List Nat) (nonce : Nat) :
    positionSeedsOpen owner nonce = positionSeedsClose owner nonce
    ∧ (positionSeedsOpen owner nonce).map (fun s => derive s programId)
      = (positionSeedsClose owner nonce).map (fun s => derive s programId) :=
  ⟨rfl, rfl⟩

/-- C10: calling the close-position builder with nonce 0 always fails the
falsy required-parameter check with the missing-parameters error, whatever
the other arguments are, because 0 is falsy in JS. -/
theorem closeUranusPosition_zero_nonce (connectionPresent : Bool)
    (owner : Option (List Nat)) (positionPda : Option (List Nat)) :
    closeUranusPosition connectionPresent 0 owner positionPda
      = .error .missingParameters := by
  simp [closeUranusPosition]

/-- C2 counterexample: the direction string "sideways" is neither "long"
nor "short", yet the builder succeeds and encodes it as -1 — there is no
InvalidDirection failure. -/
theorem encodeDirection_counterexample :
    builtDirection (createUranusPositionTransaction (some "SOL") 0 5
        (some (List.replicate 32 1)) (some (List.replicate 32 2)) 1000000000 3 "sideways")
      = some (-1) := by
  decide

/-- C2 (amended): a direction string case-insensitively equal to "long" is
encoded as +1 and every other non-empty string — "short" in any case, but
equally any invalid string — is encoded as -1 with the build succeeding;
only the empty (falsy) direction fails, with the generic
missing-parameters error rather than an InvalidDirection one. -/
theorem encodeDirection_spec (metadataSymbol direction : String)
    (accountRent nonce : Nat) (owner mint : List Nat) (lamports leverage : Nat)
    (hs : metadataSymbol ≠ "") (hl : lamports ≠ 0) (hv : leverage ≠ 0) :
    (toLowerStr direction = "long" →
      builtDirection (createUranusPositionTransaction (some metadataSymbol) accountRent nonce
        (some owner) (some mint) lamports leverage direction) = some 1)
    ∧ (toLowerStr direction ≠ "long" → direction ≠ "" →
      builtDirection (createUranusPositionTransaction (some metadataSymbol) accountRent nonce
        (some owner) (some mint) lamports leverage direction) = some (-1))
    ∧ createUranusPositionTransaction (some metadataSymbol) accountRent nonce
        (some owner) (some mint) lamports leverage "" = .error .missingParameters := by
  refine ⟨?_, ?_, ?_⟩
  · intro hdir
    have hne : direction ≠ "" := by
      intro he
      rw [he] at hdir
      exact absurd hdir (by decide)
    simp [createUranusPositionTransaction, builtDirection, encodeDirection, hdir, hs, hl, hv, hne]
  · intro hdir hne
    simp [createUranusPositionTransaction, builtDirection, encodeDirection, hdir, hs, hl, hv, hne]
  · simp [createUranusPositionTransaction]

theorem encodeDirection_spec_witness :
    builtDirection (createUranusPositionTransaction (some "SOL") 0 5
        (some (List.replicate 32 1)) (some (List.replicate 32 2)) 1000000000 3 "LoNg")
      = some 1 :=
  (encodeDirection_spec "SOL" "LoNg" 0 5 (List.replicate 32 1) (List.replicate 32 2)
      1000000000 3 (by decide) (by decide) (by decide)).1 (by decide)

/-- C3 counterexample: leverage 6 is outside the supported 1-5 range, yet
the builder succeeds — the leverage byte 6 is embedded in the payload and
the percentage fee has been computed from it (2% + 0.6% of the
1,000,000,000-lamport principal) — so there is no InvalidLeverage
validation. -/
theorem leverageValidation_counterexample :
    builtLeverage (createUranusPositionTransaction (some "SOL") 0 5
        (some (List.replicate 32 1)) (some (List.replicate 32 2)) 1000000000 6 "long")
      = some 6
    ∧ builtFees (createUranusPositionTransaction (some "SOL") 0 5
        (some (List.replicate 32 1)) (some (List.replicate 32 2)) 1000000000 6 "long")
      = some 26000000 := by
  constructor
  · decide
  · decide

/-- C3 (amended): the only leverage check is the falsy one — leverage 0
fails with the generic missing-parameters error — and every non-zero
leverage, inside or outside the 1-5 range, is accepted: the build succeeds
with that leverage byte embedded and the percentage fee computed from it. -/
theorem leverageValidation_spec (metadataSymbol direction : String)
    (accountRent nonce : Nat) (owner mint : List Nat) (lamports leverage : Nat)
    (hs : metadataSymbol ≠ "") (hl : lamports ≠ 0) (hd : direction ≠ "") :
    createUranusPositionTransaction (some metadataSymbol) accountRent nonce
        (some owner) (some mint) lamports 0 direction = .error .missingParameters
    ∧ (leverage ≠ 0 →
      builtLeverage (createUranusPositionTransaction (some metadataSymbol) accountRent nonce
          (some owner) (some mint) lamports leverage direction) = some leverage
      ∧ builtFees (createUranusPositionTransaction (some metadataSymbol) accountRent nonce
          (some owner) (some mint) lamports leverage direction)
        = some (lamports * 200 / 10000 + lamports * 10 * leverage / 10000 + accountRent)) := by
  constructor
  · simp [createUranusPositionTransaction]
  · intro hv
    constructor
    · simp [createUranusPositionTransaction, builtLeverage, hs, hl, hv, hd]
    · simp [createUranusPositionTransaction, builtFees, hs, hl, hv, hd,
            calculateFees, baseFee, leverageFee]

theorem leverageValidation_spec_witness :
    builtLeverage (createUranusPositionTransaction (some "SOL") 0 5
        (some (List.replicate 32 1)) (some (List.replicate 32 2)) 1000000000 100 "long")
      = some 100 :=
  ((leverageValidation_spec "SOL" "long" 0 5 (List.replicate 32 1) (List.replicate 32 2)
      1000000000 100 (by decide) (by decide) (by decide)).2 (by decide)).1

/-- C5 counterexample: when both an owner filter and a mint filter are
supplied and neither matches the one decoded position, the claim — exactly
one filter honored — would return the empty list, but the filter chain
matches no branch and returns the position unfiltered. -/
theorem singleFilter_counterexample :
    applyPositionFilters (some (List.replicate 32 9)) (some (List.replicate 32 8)) none
        [samplePosition] = [samplePosition]
    ∧ List.filter (fun p => p.owner = List.replicate 32 9) [samplePosition] = []
    ∧ List.filter (fun p => p.market_mint = List.replicate 32 8) [samplePosition] = []
    ∧ [samplePosition] ≠ ([] : List PositionAccount) := by
  refine ⟨by decide, by decide, by decide, by decide⟩

/-- C5 (amended): a filter predicate is honored only when it is the unique
truthy filter argument; whenever more than one filter is supplied — or
none — the chain matches no branch and every filter is ignored, the list
passing through unchanged. -/
theorem singleFilter_spec (owner marketMint : Option (List Nat))
    (ticker : Option String) (ps : List PositionAccount) :
    ((owner.isSome ∧ marketMint.isSome) ∨ (owner.isSome ∧ truthyStr ticker)
        ∨ (marketMint.isSome ∧ truthyStr ticker) →
      applyPositionFilters owner marketMint ticker ps = ps)
    ∧ (¬owner.isSome ∧ ¬marketMint.isSome ∧ ¬truthyStr ticker →
      applyPositionFilters owner marketMint ticker ps = ps)
    ∧ (∀ o, owner = some o → ¬marketMint.isSome → ¬truthyStr ticker →
      applyPositionFilters owner marketMint ticker ps
        = ps.filter (fun p => p.owner = o))
    ∧ (∀ m, marketMint = some m → ¬owner.isSome → ¬truthyStr ticker →
      applyPositionFilters owner marketMint ticker ps
        = ps.filter (fun p => p.market_mint = m))
    ∧ (∀ t, ticker = some t → truthyStr ticker → ¬owner.isSome → ¬marketMint.isSome →
      applyPositionFilters owner marketMint ticker ps
        = ps.filter (fun p => matchesTicker p t)) := by
  refine ⟨?_, ?_, ?_, ?_, ?_⟩
  · rintro (⟨h1, h2⟩ | ⟨h1, h2⟩ | ⟨h1, h2⟩) <;>
      simp [applyPositionFilters, h1, h2]
  · rintro ⟨h1, h2, h3⟩
    simp [applyPositionFilters, h1, h2, h3]
  · intro o ho h2 h3
    subst ho
    simp [applyPositionFilters, h2, h3]
  · intro m hm h1 h3
    subst hm
    simp [applyPositionFilters, h1, h3]
  · intro t ht htr h1 h2
    subst ht
    simp [applyPositionFilters, h1, h2, htr]

theorem singleFilter_spec_witness :
    applyPositionFilters (some (List.replicate 32 1)) (some (List.replicate 32 2)) none
        [samplePosition] = [samplePosition]
    ∧ applyPositionFilters (some (List.replicate 32 1)) none none [samplePosition]
        = [samplePosition] := by
  constructor
  · exact (singleFilter_spec (some (List.replicate 32 1)) (some (List.replicate 32 2)) none
      [samplePosition]).1 (Or.inl ⟨by decide, by decide⟩)
  · have := (singleFilter_spec (some (List.replicate 32 1)) none none
      [samplePosition]).2.2.1 (List.replicate 32 1) rfl (by decide) (by decide)
    rw [this]
    decide

theorem decodeAll_isSome (l : List RawAccount)
    (h : ∀ a ∈ l, (deserializePositionAccount a.data).isSome) :
    ∃ ps, decodeAll l = some ps ∧ ps.length = l.length := by
  induction l with
  | nil => exact ⟨[], rfl, rfl⟩
  | cons a r ih =>
    obtain ⟨p, hp⟩ := Option.isSome_iff_exists.mp (h a (List.mem_cons_self a r))
    obtain ⟨ps, hps, hlen⟩ := ih (fun b hb => h b (List.mem_cons_of_mem a hb))
    refine ⟨p :: ps, ?_, by simp [hlen]⟩
    simp [decodeAll, hp, hps]

theorem decodeAll_eq_none (l : List RawAccount) (a : RawAccount) (ha : a ∈ l)
    (h : deserializePositionAccount a.data = none) : decodeAll l = none := by
  induction l with
  | nil => cases ha
  | cons b r ih =>
    rcases List.mem_cons.mp ha with rfl | hmem
    · simp [decodeAll, h]
    · cases hb : deserializePositionAccount b.data with
      | none => simp [decodeAll, hb]
      | some p => simp [decodeAll, hb, ih hmem]

/-- C7 counterexample: the real fixed width of the position record is 147
bytes, not 139 — the schema field widths sum to 147 — so a 139-byte buffer
fails to decode while a 147-byte buffer, whose length differs from the
claimed 139, decodes successfully instead of failing. -/
theorem positionRecordWidth_counterexample :
    deserializePositionAccount (List.replicate 139 0) = none
    ∧ deserializePositionAccount (List.replicate 147 0) ≠ none := by
  constructor
  · exact deserialize_eq_none _ (by simp)
  · exact Option.isSome_iff_ne_none.mp (deserialize_isSome _ (by simp))

/-- C7 (amended): the fixed position-record width is 147 bytes (the sum of
the schema field widths; the claimed 139 omits the 8-byte pnl field):
decoding any byte string whose length differs from 147 — shorter or longer
— always fails with no record returned, never a truncated or zero-padded
one. -/
theorem deserializePositionAccount_width (d : List Nat) (h : d.length ≠ 147) :
    deserializePositionAccount d = none :=
  deserialize_eq_none d h

theorem deserializePositionAccount_width_witness :
    deserializePositionAccount (List.replicate 140 0) = none :=
  deserializePositionAccount_width _ (by simp)

set_option maxRecDepth 4000 in
/-- C4 counterexample: a 139-byte account is kept by the position path's
non-zero-length filter but fails to decode, so the position query fails
instead of classifying and decoding it as a position; a 50-byte account is
likewise not excluded from the position path — it equally makes the whole
query fail — while the market path does exclude it. -/
theorem accountClassification_counterexample :
    getOpenPositions [⟨0, List.replicate 139 0⟩] none none none = none
    ∧ getOpenPositions [⟨0, List.replicate 50 0⟩] none none none = none
    ∧ getAllMarkets [⟨0, List.replicate 50 0⟩] (fun _ => 0) = [] := by
  refine ⟨by decide, by decide, by decide⟩

/-- C4 (amended): the query layer classifies by payload length alone, but
the position width is 147 bytes and the position path admits every
non-zero length: a 0-length account appears exactly in the market listing,
a 147-byte account always decodes as a position (and when every account is
0- or 147-byte the position query lists exactly the 147-byte ones), while
an account of any other non-zero length is not excluded — it is fed to the
decoder and makes the whole position query fail. -/
theorem accountClassification_spec (accounts : List RawAccount) (lamports : Nat → Nat)
    (a : RawAccount) :
    (∀ d : List Nat, d.length = 147 → (deserializePositionAccount d).isSome)
    ∧ (∀ p, p ∈ getAllMarkets accounts lamports ↔
        ∃ b ∈ accounts, b.data.length = 0 ∧ p = (b.pubkey, lamports b.pubkey))
    ∧ (a ∈ accounts → a.data.length ≠ 0 → a.data.length ≠ 147 →
        ∀ ow mm tk, getOpenPositions accounts ow mm tk = none)
    ∧ ((∀ b ∈ accounts, b.data.length = 0 ∨ b.data.length = 147) →
        ∃ ps, getOpenPositions accounts none none none = some ps
          ∧ ps.length = (accounts.filter (fun b => b.data.length ≠ 0)).length) := by
  refine ⟨fun d hd => deserialize_isSome d hd, ?_, ?_, ?_⟩
  · intro p
    simp only [getAllMarkets, List.mem_map, List.mem_filter, decide_eq_true_eq]
    constructor
    · rintro ⟨b, ⟨hb, hb0⟩, rfl⟩
      exact ⟨b, hb, hb0, rfl⟩
    · rintro ⟨b, hb, hb0, rfl⟩
      exact ⟨b, ⟨hb, hb0⟩, rfl⟩
  · intro ha h0 h147 ow mm tk
    have hmem : a ∈ accounts.filter (fun b => b.data.length ≠ 0) := by
      rw [List.mem_filter]
      exact ⟨ha, by simpa using h0⟩
    have hnone : decodeAll (accounts.filter (fun b => b.data.length ≠ 0)) = none :=
      decodeAll_eq_none _ a hmem (deserialize_eq_none _ h147)
    simp only [getOpenPositions, hnone, Option.map_none']
  · intro hall
    obtain ⟨ps, hps, hlen⟩ :=
      decodeAll_isSome (accounts.filter (fun b => b.data.length ≠ 0)) (by
        intro b hb
        obtain ⟨hbmem, hb0⟩ := List.mem_filter.mp hb
        rcases hall b hbmem with h | h
        · simp [h] at hb0
        · exact deserialize_isSome _ h)
    refine ⟨ps, ?_, hlen⟩
    simp only [getOpenPositions, hps, Option.map_some', Option.some.injEq]
    simp [applyPositionFilters, truthyStr]

theorem accountClassification_spec_witness :
    getOpenPositions [⟨0, List.replicate 50 0⟩, ⟨1, []⟩] none none none = none :=
  (accountClassification_spec [⟨0, List.replicate 50 0⟩, ⟨1, []⟩] (fun _ => 0)
      ⟨0, List.replicate 50 0⟩).2.2.1 (by simp) (by simp) (by simp) none none none

theorem pageKeep_eq_self (cutoff : Int) (page : List SigInfo)
    (h : ∀ s ∈ page, cutoff ≤ s.blockTime) : pageKeep cutoff page = page := by
  simp only [pageKeep, List.takeWhile_eq_self_iff, decide_eq_true_eq]
  exact h

theorem pageKeep_eq_filter (cutoff : Int) (page : List SigInfo)
    (h : page.Pairwise (fun a b => b.blockTime ≤ a.blockTime)) :
    pageKeep cutoff page = page.filter (fun s => cutoff ≤ s.blockTime) := by
  induction page with
  | nil => rfl
  | cons a r ih =>
    obtain ⟨ha, hr⟩ := List.pairwise_cons.mp h
    by_cases hc : cutoff ≤ a.blockTime
    · rw [pageKeep, List.takeWhile_cons, if_pos (by simpa using hc),
        List.filter_cons_of_pos (by simpa using hc)]
      exact congrArg (a :: ·) (ih hr)
    · have hall : ∀ s ∈ r, ¬(cutoff ≤ s.blockTime) := fun s hs hle =>
        hc (le_trans hle (ha s hs))
      rw [pageKeep, List.takeWhile_cons, if_neg (by simpa using hc),
        List.filter_cons_of_neg (by simpa using hc)]
      exact (List.filter_eq_nil_iff.mpr (by simpa using hall)).symm

theorem pageKeep_lt_of_exists (cutoff : Int) (page : List SigInfo)
    (h : ∃ s ∈ page, s.blockTime < cutoff) :
    (pageKeep cutoff page).length < page.length := by
  obtain ⟨s, hs, hlt⟩ := h
  have hpre := List.takeWhile_prefix (l := page) (fun x => decide (cutoff ≤ x.blockTime))
  have hle : (pageKeep cutoff page).length ≤ page.length := hpre.length_le
  rcases lt_or_eq_of_le hle with hl | he
  · exact hl
  · exfalso
    have : pageKeep cutoff page = page := hpre.eq_of_length he
    have := List.takeWhile_eq_self_iff.mp this s hs
    simp at this
    omega

/-- C8: when pages 1 and 2 are full 100-entry pages entirely at or after
the cutoff and page 3 (non-increasing timestamps) contains an entry before
the cutoff (so its oldest entry is before it), the pagination loop issues
exactly 3 fetches and keeps every entry of page 3 at or after the cutoff
while discarding the ones before it; and the loop stops after any page
shorter than 100 entries. -/
theorem pagination_spec (p1 p2 p3 : List SigInfo) (rest : List (List SigInfo)) (cutoff : Int)
    (h1len : p1.length = 100) (h2len : p2.length = 100)
    (h1 : ∀ s ∈ p1, cutoff ≤ s.blockTime) (h2 : ∀ s ∈ p2, cutoff ≤ s.blockTime)
    (hmono : p3.Pairwise (fun a b => b.blockTime ≤ a.blockTime))
    (h3 : ∃ s ∈ p3, s.blockTime < cutoff) :
    getAllSignaturesForMarket cutoff (p1 :: p2 :: p3 :: rest)
      = (3, p1 ++ p2 ++ p3.filter (fun s => cutoff ≤ s.blockTime))
    ∧ (∀ q qs, q.length < 100 → (getAllSignaturesForMarket cutoff (q :: qs)).1 = 1) := by
  constructor
  · have k1 : pageKeep cutoff p1 = p1 := pageKeep_eq_self _ _ h1
    have k2 : pageKeep cutoff p2 = p2 := pageKeep_eq_self _ _ h2
    have k3 : pageKeep cutoff p3 = p3.filter (fun s => cutoff ≤ s.blockTime) :=
      pageKeep_eq_filter _ _ hmono
    have k3lt : (p3.filter (fun s => cutoff ≤ s.blockTime)).length < p3.length :=
      k3 ▸ pageKeep_lt_of_exists _ _ h3
    simp only [getAllSignaturesForMarket, k1, k2, k3, h1len, h2len, k3lt, lt_irrefl,
      false_or, or_false, if_false, if_true, List.append_assoc]
    norm_num
  · intro q qs hq
    simp only [getAllSignaturesForMarket]
    rw [if_pos (Or.inr hq)]

set_option maxRecDepth 8000 in
theorem pagination_spec_witness :
    getAllSignaturesForMarket 5
        (List.replicate 100 ⟨0, 10⟩ :: List.replicate 100 ⟨0, 10⟩
          :: [⟨1, 10⟩, ⟨2, 0⟩] :: [[⟨3, 10⟩]])
      = (3, List.replicate 100 ⟨0, 10⟩ ++ List.replicate 100 ⟨0, 10⟩ ++ [⟨1, 10⟩]) := by
  have h := (pagination_spec (List.replicate 100 ⟨0, 10⟩) (List.replicate 100 ⟨0, 10⟩)
      [⟨1, 10⟩, ⟨2, 0⟩] [[⟨3, 10⟩]] 5 (by simp) (by simp)
      (fun s hs => by rw [List.eq_of_mem_replicate hs]; decide)
      (fun s hs => by rw [List.eq_of_mem_replicate hs]; decide)
      (by decide) (by decide)).1
  rw [h]
  decide

theorem utf8DecodeLoop_fuel (f1 : Nat) : ∀ (f2 : Nat) (l : List Nat),
    l.length ≤ f1 → l.length ≤ f2 → utf8DecodeLoop f1 l = utf8DecodeLoop f2 l := by
  induction f1 with
  | zero =>
    intro f2 l h1 h2
    cases l with
    | nil => cases f2 <;> rfl
    | cons b r => simp at h1
  | succ g ih =>
    intro f2 l h1 h2
    cases l with
    | nil => cases f2 <;> rfl
    | cons b r =>
      cases f2 with
      | zero => simp at h2
      | succ g2 =>
        simp only [utf8DecodeLoop]
        have hd : (r.drop (utf8Step b r).2).length ≤ r.length := by
          simp [List.length_drop]
        simp only [List.length_cons] at h1 h2
        rw [ih g2 (r.drop (utf8Step b r).2) (by omega) (by omega)]

theorem utf8Decode_cons_step (b : Nat) (bs rest : List Nat) (c : Char)
    (hstep : utf8Step b (bs ++ rest) = (c, bs.length)) :
    utf8Decode ((b :: bs) ++ rest) = c :: utf8Decode rest := by
  show utf8DecodeLoop ((b :: bs) ++ rest).length ((b :: bs) ++ rest) = _
  simp only [List.cons_append, List.length_cons, List.length_append]
  rw [utf8DecodeLoop]
  simp only [hstep]
  rw [List.drop_left]
  exact congrArg (c :: ·)
    (utf8DecodeLoop_fuel (bs.length + rest.length) rest.length rest (by omega) (by omega))

theorem utf8Decode_encodeChar (c : Char) (rest : List Nat) :
    utf8Decode (utf8EncodeChar c ++ rest) = c :: utf8Decode rest := by
  have hv : c.toNat < 55296 ∨ (57343 < c.toNat ∧ c.toNat < 1114112) := c.valid
  by_cases h1 : c.toNat < 128
  · have henc : utf8EncodeChar c = [c.toNat] := by
      simp only [utf8EncodeChar]
      rw [if_pos h1]
    rw [henc]
    refine utf8Decode_cons_step c.toNat [] rest c ?_
    simp only [utf8Step, List.nil_append]
    rw [if_pos h1, Char.ofNat_toNat]
    rfl
  · by_cases h2 : c.toNat < 2048
    · have henc : utf8EncodeChar c = [192 + c.toNat / 64, 128 + c.toNat % 64] := by
        simp only [utf8EncodeChar]
        rw [if_neg h1, if_pos h2]
      rw [henc]
      refine utf8Decode_cons_step (192 + c.toNat / 64) [128 + c.toNat % 64] rest c ?_
      simp only [utf8Step, List.cons_append, List.nil_append]
      rw [if_neg (by omega), if_neg (by omega), if_pos (by omega)]
      rw [if_pos (by constructor <;> omega)]
      have harith : (192 + c.toNat / 64 - 192) * 64 + (128 + c.toNat % 64 - 128) = c.toNat := by
        omega
      rw [harith, Char.ofNat_toNat]
      rfl
    · by_cases h3 : c.toNat < 65536
      · have henc : utf8EncodeChar c
            = [224 + c.toNat / 4096, 128 + c.toNat / 64 % 64, 128 + c.toNat % 64] := by
          simp only [utf8EncodeChar]
          rw [if_neg h1, if_neg h2, if_pos h3]
        rw [henc]
        refine utf8Decode_cons_step (224 + c.toNat / 4096)
          [128 + c.toNat / 64 % 64, 128 + c.toNat % 64] rest c ?_
        simp only [utf8Step, List.cons_append, List.nil_append]
        rw [if_neg (by omega), if_neg (by omega), if_neg (by omega), if_pos (by omega)]
        rw [if_pos (by refine ⟨⟨?_, ?_⟩, ?_, ?_⟩ <;> (try split) <;> omega)]
        have harith : (224 + c.toNat / 4096 - 224) * 4096
            + (128 + c.toNat / 64 % 64 - 128) * 64 + (128 + c.toNat % 64 - 128) = c.toNat := by
          omega
        rw [harith, Char.ofNat_toNat]
        rfl
      · have henc : utf8EncodeChar c
            = [240 + c.toNat / 262144, 128 + c.toNat / 4096 % 64,
               128 + c.toNat / 64 % 64, 128 + c.toNat % 64] := by
          simp only [utf8EncodeChar]
          rw [if_neg h1, if_neg h2, if_neg h3]
        rw [henc]
        refine utf8Decode_cons_step (240 + c.toNat / 262144)
          [128 + c.toNat / 4096 % 64, 128 + c.toNat / 64 % 64, 128 + c.toNat % 64] rest c ?_
        simp only [utf8Step, List.cons_append, List.nil_append]
        rw [if_neg (by omega), if_neg (by omega), if_neg (by omega), if_neg (by omega),
          if_pos (by omega)]
        rw [if_pos (by refine ⟨⟨?_, ?_⟩, ⟨?_, ?_⟩, ?_, ?_⟩ <;> (try split) <;> omega)]
        have harith : (240 + c.toNat / 262144 - 240) * 262144
            + (128 + c.toNat / 4096 % 64 - 128) * 4096
            + (128 + c.toNat / 64 % 64 - 128) * 64 + (128 + c.toNat % 64 - 128) = c.toNat := by
          omega
        rw [harith, Char.ofNat_toNat]
        rfl

theorem utf8Decode_flatten (cs : List Char) (rest : List Nat) :
    utf8Decode ((cs.map utf8EncodeChar).flatten ++ rest) = cs ++ utf8Decode rest := by
  induction cs with
  | nil => simp
  | cons c cs ih =>
    simp only [List.map_cons, List.flatten_cons, List.append_assoc, List.cons_append]
    rw [utf8Decode_encodeChar, ih]

theorem utf8Decode_zeros (k : Nat) :
    utf8Decode (List.replicate k 0) = List.replicate k (Char.ofNat 0) := by
  induction k with
  | zero => rfl
  | succ k ih =>
    rw [List.replicate_succ, List.replicate_succ]
    have hstep : utf8Step 0 (List.replicate k 0) = (Char.ofNat 0, 0) := by
      simp only [utf8Step]
      rw [if_pos (by omega)]
    have := utf8Decode_cons_step 0 [] (List.replicate k 0) (Char.ofNat 0)
      (by simpa using hstep)
    simpa [ih] using this

/-- C6 (amended): the encoder truncates the symbol to at most 31 UTF-8
bytes and zero-pads the 32-byte buffer, and decoding inverts encoding for
every symbol whose UTF-8 encoding fits in 31 bytes and contains no NUL
character — covering the claimed boundary cases (empty, 31 bytes,
non-ASCII) — but the decoder does not trim only trailing zero bytes and
never fails: it removes every NUL character, interior ones included, and
decodes invalid UTF-8 lossily to replacement characters instead of
raising a DecodeError. -/
theorem symbolRoundTrip (s : String) (hlen : (strBytes s).length ≤ 31)
    (hnul : ∀ c ∈ s.data, c ≠ Char.ofNat 0) :
    decodeSymbol (stringToFixedArray s 32) = s := by
  have hfix : stringToFixedArray s 32
      = strBytes s ++ List.replicate (32 - (strBytes s).length) 0 := by
    simp only [stringToFixedArray]
    rw [min_eq_left (by omega), List.take_length]
  rw [hfix, decodeSymbol]
  rw [show strBytes s ++ List.replicate (32 - (strBytes s).length) 0
      = (s.data.map utf8EncodeChar).flatten ++ List.replicate (32 - (strBytes s).length) 0
    from rfl]
  rw [utf8Decode_flatten, utf8Decode_zeros]
  have hs' : (s.data).filter (fun c => c ≠ Char.ofNat 0) = s.data :=
    List.filter_eq_self.mpr (by intro a ha; simpa using hnul a ha)
  have hz' : (List.replicate (32 - (strBytes s).length) (Char.ofNat 0)).filter
      (fun c => c ≠ Char.ofNat 0) = [] :=
    List.filter_eq_nil_iff.mpr (by intro a ha; simp [List.eq_of_mem_replicate ha])
  rw [List.filter_append, hs', hz', List.append_nil]

theorem symbolRoundTrip_witness :
    decodeSymbol (stringToFixedArray "ΛΦΩ" 32) = "ΛΦΩ" :=
  symbolRoundTrip "ΛΦΩ" (by decide) (by decide)

set_option maxRecDepth 4000 in
/-- C6 counterexample: on the 32-byte buffer holding 97, 0, 98 and then
trailing zeros, the decoder the claim describes (trim trailing zeros,
strict UTF-8) yields the string with an interior NUL, but the code's
decoder strips the interior NUL too and returns a different string; and on
a buffer starting with the invalid byte 255 the claim demands a
DecodeError while the code's decoder succeeds with a replacement
character. -/
theorem symbolDecoder_counterexample :
    decodeSymbol ((97 : Nat) :: 0 :: 98 :: List.replicate 29 0) = "ab"
    ∧ specDecodeSymbol ((97 : Nat) :: 0 :: 98 :: List.replicate 29 0) = some "a\x00b"
    ∧ decodeSymbol ((255 : Nat) :: List.replicate 31 0) = String.mk [replChar]
    ∧ specDecodeSymbol ((255 : Nat) :: List.replicate 31 0) = none
    ∧ ("ab" : String) ≠ "a\x00b" := by
  refine ⟨by decide, by decide, by decide, by decide, by decide⟩

end UranusDex
